import Mathlib

/-!
Shallow embedding of the decimal constraint engine of go-xvalidator.

Strings are modelled as `List Char` (a Go string's byte/char sequence; all
inputs of interest here are ASCII).  Go `int32` parameters are modelled as
`Int`.  The external arbitrary-precision decimal primitive
(`shopspring/decimal`) and `strconv.ParseInt` are not part of this
repository's sources; they are modelled from the spec where it speaks
(grammar of decimal literals in §4.2, canonical string rendering in §3/§4.3,
exact numeric comparison in §4.4, base-10 integer parsing in §4.1).
-/

namespace XValidator

/-- Numeric value of a single ASCII digit character. -/
def charDigitVal (c : Char) : Nat := c.toNat - '0'.toNat

/-- Fold a list of ASCII digit characters into the base-10 natural number they denote. -/
def digitsToNat (l : List Char) : Nat :=
  l.foldl (fun acc c => acc * 10 + charDigitVal c) 0

/-- Render a natural number's base-10 digits, most significant first (fueled recursion). -/
def natDigitsAux : Nat → Nat → List Char
  | 0, _ => []
  | f + 1, n => if n = 0 then [] else natDigitsAux f (n / 10) ++ [Nat.digitChar (n % 10)]

/-- Render a natural number in base 10 (`"0"` for zero), as the Go `big.Int.String` would. -/
def natToDigitString (n : Nat) : List Char :=
  if n = 0 then ['0'] else natDigitsAux (n + 1) n

/-- Render an integer in base 10, with a leading minus sign when negative. -/
def intToDigitString (n : Int) : List Char :=
  if n < 0 then '-' :: natToDigitString n.natAbs else natToDigitString n.toNat

/-- Model of Go `strings.Split(s, sep)` for a one-character separator:
splits `s` at every occurrence of `sep`, keeping empty substrings. -/
def goSplit (sep : Char) : List Char → List (List Char)
  | [] => [[]]
  | c :: cs =>
    if c = sep then [] :: goSplit sep cs
    else
      match goSplit sep cs with
      | [] => [[c]]
      | h :: t => (c :: h) :: t

/-- Model of Go `strings.Contains(s, sep)` for a one-character separator. -/
def goContainsChar (s : List Char) (sep : Char) : Bool := s.contains sep

/-- Parse a nonempty all-digit string as a natural number;
`none` when empty or when any character is not an ASCII digit. -/
def parseDigitString (s : List Char) : Option Nat :=
  if s ≠ [] ∧ s.all Char.isDigit then some (digitsToNat s) else none

/-- Modelled from the spec: the Go standard library's `strconv.ParseInt(s, 10, 32)`
(not part of this repository's sources), as §4.1 uses it: an optional single
leading `+` or `-` sign followed by one or more base-10 digits, with the result
required to fit in a signed 32-bit integer; anything else is a parse failure. -/
def goParseInt32 (s : List Char) : Option Int :=
  match s with
  | '+' :: rest =>
    (parseDigitString rest).bind fun n =>
      if (n : Int) ≤ 2 ^ 31 - 1 then some (n : Int) else none
  | '-' :: rest =>
    (parseDigitString rest).bind fun n =>
      if (n : Int) ≤ 2 ^ 31 then some (-(n : Int)) else none
  | _ =>
    (parseDigitString s).bind fun n =>
      if (n : Int) ≤ 2 ^ 31 - 1 then some (n : Int) else none

/-- Default precision for decimal validation (`DefaultPrecision` in the source). -/
def DefaultPrecision : Int := 38

/-- Default scale for decimal validation (`DefaultScale` in the source). -/
def DefaultScale : Int := 18

/-- Embedding of `parseDecimalParams`: parses the decimal rule's parameter into
a `(precision, scale)` pair, keeping the defaults `(38, 18)` for every half
that is missing or fails to parse. -/
def parseDecimalParams (param : List Char) : Int × Int :=
  if param = [] then (DefaultPrecision, DefaultScale)
  else if goContainsChar param ':' then
    match goSplit ':' param with
    | [a, b] =>
      ((goParseInt32 a).getD DefaultPrecision, (goParseInt32 b).getD DefaultScale)
    | _ => (DefaultPrecision, DefaultScale)
  else
    (DefaultPrecision, (goParseInt32 param).getD DefaultScale)

/-- Modelled from the spec: a Decimal Value of the external arbitrary-precision
decimal primitive — an arbitrary-precision signed decimal number, represented
as a coefficient and a power-of-ten exponent (the number denoted is
`value * 10 ^ exp`). -/
structure GoDecimal where
  value : Int
  exp : Int
deriving DecidableEq, Repr

/-- Strip trailing `'0'` characters from a fractional-digit string. -/
def trimTrailingZeroChars (l : List Char) : List Char :=
  (l.reverse.dropWhile (fun c => c = '0')).reverse

/-- Modelled from the spec: the canonical string rendering of a Decimal Value
(§3: sign, integer digits, optional fractional digits; §8 round-trip: trailing
fractional zeros are not part of the canonical form).  For a non-negative
exponent the number is rendered as a plain integer; otherwise the coefficient's
digits are split into integer and fractional parts, zero-padding on the left
when the coefficient has fewer digits than the scale, and trailing fractional
zeros are trimmed. -/
def GoDecimal.canonicalString (d : GoDecimal) : List Char :=
  if 0 ≤ d.exp then intToDigitString (d.value * 10 ^ d.exp.toNat)
  else
    let str := natToDigitString d.value.natAbs
    let dExp := (-d.exp).toNat
    let intPart := if dExp < str.length then str.take (str.length - dExp) else ['0']
    let fracRaw :=
      if dExp < str.length then str.drop (str.length - dExp)
      else List.replicate (dExp - str.length) '0' ++ str
    let fracPart := trimTrailingZeroChars fracRaw
    let number := intPart ++ (if fracPart = [] then [] else '.' :: fracPart)
    if d.value < 0 then '-' :: number else number

/-- Parse the unsigned part of a decimal literal: one or more integer digits,
optionally followed by `'.'` and one or more fractional digits.  Returns the
digits read as a coefficient together with the number of fractional digits. -/
def parseUnsignedDecimal (s : List Char) : Option (Nat × Nat) :=
  if s.takeWhile Char.isDigit = [] then none
  else
    match s.dropWhile Char.isDigit with
    | [] => some (digitsToNat (s.takeWhile Char.isDigit), 0)
    | '.' :: frac =>
      if frac ≠ [] ∧ frac.all Char.isDigit then
        some (digitsToNat (s.takeWhile Char.isDigit ++ frac), frac.length)
      else none
    | _ => none

/-- Modelled from the spec: the Decimal Value Parser (§4.2, the external
primitive's `NewFromString`): accepts an optional leading `-`, one or more
integer digits, and an optional `.` followed by one or more fractional digits;
any other content is a parse failure. -/
def NewFromString (s : List Char) : Option GoDecimal :=
  match s with
  | '-' :: rest =>
    (parseUnsignedDecimal rest).map fun p => ⟨-(p.1 : Int), -(p.2 : Int)⟩
  | _ =>
    (parseUnsignedDecimal s).map fun p => ⟨(p.1 : Int), -(p.2 : Int)⟩

/-- Coefficient of a Decimal Value rescaled to exponent `m` (for `m ≤ exp`):
the integer `value * 10 ^ (exp - m)`. -/
def GoDecimal.rescaleValue (d : GoDecimal) (m : Int) : Int :=
  d.value * 10 ^ (d.exp - m).toNat

/-- The rational number a Decimal Value denotes. -/
def GoDecimal.toRat (d : GoDecimal) : ℚ := (d.value : ℚ) * 10 ^ d.exp

/-- Embedding of `decimalGreaterThan`: exact numeric `>` on Decimal Values,
modelled from the spec (§4.4) by comparing coefficients rescaled to the
smaller exponent. -/
def decimalGreaterThan (a b : GoDecimal) : Bool :=
  let m := min a.exp b.exp
  decide (b.rescaleValue m < a.rescaleValue m)

/-- Embedding of `decimalGreaterThanOrEqual`: exact numeric `≥` on Decimal Values. -/
def decimalGreaterThanOrEqual (a b : GoDecimal) : Bool :=
  let m := min a.exp b.exp
  decide (b.rescaleValue m ≤ a.rescaleValue m)

/-- Embedding of `decimalLessThan`: exact numeric `<` on Decimal Values. -/
def decimalLessThan (a b : GoDecimal) : Bool :=
  let m := min a.exp b.exp
  decide (a.rescaleValue m < b.rescaleValue m)

/-- Embedding of `decimalLessThanOrEqual`: exact numeric `≤` on Decimal Values. -/
def decimalLessThanOrEqual (a b : GoDecimal) : Bool :=
  let m := min a.exp b.exp
  decide (a.rescaleValue m ≤ b.rescaleValue m)

/-- Embedding of `decimalEqual`: exact numeric equality on Decimal Values. -/
def decimalEqual (a b : GoDecimal) : Bool :=
  let m := min a.exp b.exp
  decide (a.rescaleValue m = b.rescaleValue m)

/-- Embedding of `decimalNotEqual`: negation of `decimalEqual`. -/
def decimalNotEqual (a b : GoDecimal) : Bool := !decimalEqual a b

/-- Embedding of `validateDecimalOperation`: parses the field's string and the
rule's parameter string independently as Decimal Values and applies the given
comparator; returns `false` when either parse fails. -/
def validateDecimalOperation (comparator : GoDecimal → GoDecimal → Bool)
    (data param : List Char) : Bool :=
  match NewFromString data with
  | none => false
  | some value =>
    match NewFromString param with
    | none => false
    | some baseValue => comparator value baseValue

/-- Strip a single leading `'-'`, as Go `strings.TrimPrefix(s, "-")` does. -/
def stripMinus : List Char → List Char
  | '-' :: rest => rest
  | s => s

/-- Normalize an integer-digit string as `validateDecimalPrecisionScale` does:
when it is not exactly `"0"`, strip leading zeros and treat an empty result as
the single digit `"0"`. -/
def normalizeIntegerPart (l : List Char) : List Char :=
  if l ≠ ['0'] then
    if l.dropWhile (fun c => c = '0') = [] then ['0']
    else l.dropWhile (fun c => c = '0')
  else l

/-- Embedding of `validateDecimalPrecisionScale`: renders the value to its
canonical string, strips a leading minus, splits on `'.'`, normalizes the
integer part, and checks `decimalPlaces ≤ scale` and
`integerDigits ≤ precision - scale`. -/
def validateDecimalPrecisionScale (value : GoDecimal) (precision scale : Int) : Bool :=
  let valueStr := stripMinus value.canonicalString
  let parts := goSplit '.' valueStr
  let integerPart := normalizeIntegerPart (parts.headD [])
  let decimalPart := parts.getD 1 []
  let integerDigits : Int := integerPart.length
  let decimalPlaces : Int := decimalPart.length
  if decimalPlaces > scale then false
  else decide (integerDigits ≤ precision - scale)

/-- Embedding of `validateDecimal`: parses the field's string as a Decimal
Value, parses the rule parameter into `(precision, scale)`, and validates. -/
def validateDecimal (data param : List Char) : Bool :=
  match NewFromString data with
  | none => false
  | some value =>
    let ps := parseDecimalParams param
    validateDecimalPrecisionScale value ps.1 ps.2

/-- Embedding of `parseDecimalIfParam`: splits the parameter on `'@'` into rule
and condition (requiring exactly two pieces), then splits the condition on
`'='` into field name and expected value (again exactly two pieces); any other
shape is a parse error. -/
def parseDecimalIfParam (param : List Char) :
    Option (List Char × List Char × List Char) :=
  match goSplit '@' param with
  | [r, c] =>
    match goSplit '=' c with
    | [f, e] => some (r, f, e)
    | _ => none
  | _ => none

/-- Sibling-field lookup on the parent structure, modelling
`parent.FieldByName(name)` followed by `.IsValid()` / `.String()`: the parent
is an association list of field names to string values. -/
def lookupField (parent : List (List Char × List Char)) (name : List Char) :
    Option (List Char) :=
  match parent with
  | [] => none
  | (n, v) :: rest => if n = name then some v else lookupField rest name

/-- Embedding of `validateDecimalIf`: parse the parameter (failure ⇒ `false`);
look up the named sibling (missing ⇒ `false`); if the sibling's value differs
from the expected value, pass trivially; otherwise validate the target field
as `validateDecimal` does with the inner rule. -/
def validateDecimalIf (parent : List (List Char × List Char))
    (data param : List Char) : Bool :=
  match parseDecimalIfParam param with
  | none => false
  | some rfe =>
    match lookupField parent rfe.2.1 with
    | none => false
    | some other =>
      if other ≠ rfe.2.2 then true
      else
        match NewFromString data with
        | none => false
        | some value =>
          let ps := parseDecimalParams rfe.1
          validateDecimalPrecisionScale value ps.1 ps.2

/-- The number of fractional digits of a Decimal Value's canonical string
(the part after the `'.'`, empty when there is none), after stripping a
leading minus sign. -/
def fractionalDigitCount (d : GoDecimal) : Int :=
  ((goSplit '.' (stripMinus d.canonicalString)).getD 1 []).length

/-- The number of integer digits of a Decimal Value's canonical string after
stripping a leading minus sign and normalizing leading zeros (an empty or
all-zero integer part counts as the single digit `"0"`). -/
def integerDigitCount (d : GoDecimal) : Int :=
  (normalizeIntegerPart ((goSplit '.' (stripMinus d.canonicalString)).headD [])).length

/-! ### Helper lemmas about `goSplit` -/

theorem goSplit_ne_nil (sep : Char) (s : List Char) : goSplit sep s ≠ [] := by
  induction s with
  | nil => simp [goSplit]
  | cons c cs ih =>
    simp only [goSplit]
    split
    · simp
    · split <;> simp

theorem goSplit_no_sep (sep : Char) (s : List Char) (h : sep ∉ s) :
    goSplit sep s = [s] := by
  induction s with
  | nil => rfl
  | cons c cs ih =>
    simp only [List.mem_cons, not_or] at h
    have hcs := ih h.2
    simp only [goSplit, hcs]
    rw [if_neg fun hc => h.1 hc.symm]

theorem goSplit_append_sep (sep : Char) (a b : List Char) (h : sep ∉ a) :
    goSplit sep (a ++ sep :: b) = a :: goSplit sep b := by
  induction a with
  | nil => simp [goSplit]
  | cons c a' ih =>
    simp only [List.mem_cons, not_or] at h
    simp only [List.cons_append, goSplit, List.append_eq, ih h.2]
    rw [if_neg fun hc => h.1 hc.symm]

theorem goSplit_eq_singleton (sep : Char) (s x : List Char)
    (h : goSplit sep s = [x]) : s = x ∧ sep ∉ x := by
  induction s generalizing x with
  | nil =>
    simp only [goSplit, List.cons.injEq] at h
    exact ⟨h.1, by simp [← h.1]⟩
  | cons c cs ih =>
    simp only [goSplit] at h
    by_cases hc : c = sep
    · rw [if_pos hc] at h
      simp only [List.cons.injEq] at h
      exact absurd h.2 (goSplit_ne_nil sep cs)
    · rw [if_neg hc] at h
      cases hg : goSplit sep cs with
      | nil => exact absurd hg (goSplit_ne_nil sep cs)
      | cons hd tl =>
        rw [hg] at h
        simp only [List.cons.injEq] at h
        obtain ⟨hx, htl⟩ := h
        have := ih hd (by rw [hg, htl])
        subst hx
        refine ⟨by rw [this.1], ?_⟩
        simp only [List.mem_cons, not_or]
        exact ⟨fun hs => hc hs.symm, this.2⟩

theorem goSplit_eq_pair (sep : Char) (s a b : List Char) :
    goSplit sep s = [a, b] ↔ s = a ++ sep :: b ∧ sep ∉ a ∧ sep ∉ b := by
  constructor
  · intro h
    induction s generalizing a with
    | nil => simp [goSplit] at h
    | cons c cs ih =>
      simp only [goSplit] at h
      by_cases hc : c = sep
      · rw [if_pos hc] at h
        simp only [List.cons.injEq] at h
        obtain ⟨ha, hb⟩ := h
        have := goSplit_eq_singleton sep cs b (by rw [hb])
        subst hc
        exact ⟨by simp [← ha, this.1], by simp [← ha], this.2⟩
      · rw [if_neg hc] at h
        cases hg : goSplit sep cs with
        | nil => exact absurd hg (goSplit_ne_nil sep cs)
        | cons hd tl =>
          rw [hg] at h
          simp only [List.cons.injEq] at h
          obtain ⟨ha, htl⟩ := h
          have := ih hd (by rw [hg, htl])
          subst ha
          refine ⟨by rw [List.cons_append, this.1], ?_, this.2.2⟩
          simp only [List.mem_cons, not_or]
          exact ⟨fun hs => hc hs.symm, this.2.1⟩
  · rintro ⟨hs, ha, hb⟩
    rw [hs, goSplit_append_sep sep a b ha, goSplit_no_sep sep b hb]

theorem goContainsChar_eq_true (s : List Char) (c : Char) (h : c ∈ s) :
    goContainsChar s c = true := by
  simpa [goContainsChar, List.contains] using h

theorem goContainsChar_eq_false (s : List Char) (c : Char) (h : c ∉ s) :
    goContainsChar s c = false := by
  simpa [goContainsChar, List.contains] using h

/-! ### Helper lemmas about `goParseInt32` and the precision/scale check -/

theorem goParseInt32_range (s : List Char) (n : Int) (h : goParseInt32 s = some n) :
    -(2 ^ 31) ≤ n ∧ n ≤ 2 ^ 31 - 1 := by
  unfold goParseInt32 at h
  split at h <;>
    (rw [Option.bind_eq_some] at h
     obtain ⟨m, hm, hif⟩ := h
     split at hif
     · simp only [Option.some.injEq] at hif
       omega
     · exact absurd hif (by simp))

theorem validateDecimalPrecisionScale_eq (d : GoDecimal) (precision scale : Int) :
    validateDecimalPrecisionScale d precision scale =
      if fractionalDigitCount d > scale then false
      else decide (integerDigitCount d ≤ precision - scale) := rfl

theorem normalizeIntegerPart_ne_nil (l : List Char) : normalizeIntegerPart l ≠ [] := by
  unfold normalizeIntegerPart
  split
  · split
    · simp
    · assumption
  · next h =>
      have hl : l = ['0'] := by simpa using h
      simp [hl]

/-- C1: for every decimal value `v` (via its canonical string, minus sign
stripped, integer part normalized by stripping leading zeros with an empty
result treated as `"0"`) and every limit pair `(precision, scale)`,
`validateDecimalPrecisionScale v precision scale` returns `true` iff the number
of fractional digits of `v` is at most `scale` and the number of normalized
integer digits of `v` is at most `precision - scale`; in particular
`"12345678"` passes `(10,2)`, `"123456789"` fails `(10,2)`, `"1234567890"`
passes `(10,0)`, and `"12345678901"` fails `(10,0)`. -/
theorem validateDecimalPrecisionScale_iff :
    (∀ (d : GoDecimal) (precision scale : Int),
      validateDecimalPrecisionScale d precision scale = true ↔
        fractionalDigitCount d ≤ scale ∧
          integerDigitCount d ≤ precision - scale) ∧
    (NewFromString "12345678".data).map
      (fun d => validateDecimalPrecisionScale d 10 2) = some true ∧
    (NewFromString "123456789".data).map
      (fun d => validateDecimalPrecisionScale d 10 2) = some false ∧
    (NewFromString "1234567890".data).map
      (fun d => validateDecimalPrecisionScale d 10 0) = some true ∧
    (NewFromString "12345678901".data).map
      (fun d => validateDecimalPrecisionScale d 10 0) = some false := by
  refine ⟨?_, by decide, by decide, by decide, by decide⟩
  intro d precision scale
  rw [validateDecimalPrecisionScale_eq]
  by_cases h : fractionalDigitCount d > scale
  · simp only [if_pos h, Bool.false_eq_true, false_iff]
    rintro ⟨h1, -⟩
    omega
  · simp only [if_neg h, decide_eq_true_eq]
    exact ⟨fun h2 => ⟨by omega, h2⟩, fun h2 => h2.2⟩

/-- C10: whenever `precision = scale` (so the integer-digit budget
`precision - scale` is zero), `validateDecimalPrecisionScale` returns `false`
for every decimal value, because the normalized integer part always contains
at least one digit. -/
theorem validateDecimalPrecisionScale_zero_integer_budget
    (d : GoDecimal) (s : Int) :
    validateDecimalPrecisionScale d s s = false := by
  rw [validateDecimalPrecisionScale_eq]
  by_cases h : fractionalDigitCount d > s
  · simp [h]
  · have h1 : 1 ≤ integerDigitCount d := by
      unfold integerDigitCount
      have hne := normalizeIntegerPart_ne_nil
        ((goSplit '.' (stripMinus d.canonicalString)).headD [])
      cases hcase : normalizeIntegerPart
          ((goSplit '.' (stripMinus d.canonicalString)).headD []) with
      | nil => exact absurd hcase hne
      | cons x xs =>
        rw [List.length_cons]
        exact_mod_cast Nat.succ_le_succ (Nat.zero_le xs.length)
    have h2 : ¬(integerDigitCount d ≤ s - s) := by omega
    simp only [if_neg h, decide_eq_false_iff_not]
    exact h2

/-- C2: `parseDecimalParams` maps `""` to `(38,18)`; a single-colon parameter
is split into two halves each parsed independently as a base-10 integer, with
the default (38 for precision, 18 for scale) retained exactly for the halves
that fail to parse; a colon-free parameter sets only the scale with precision
fixed at 38; concretely `""` ↦ `(38,18)`, `"2"` ↦ `(38,2)`, `"10:6"` ↦
`(10,6)`, `"abc:def"` ↦ `(38,18)`, `"10:abc"` ↦ `(10,18)`. -/
theorem parseDecimalParams_spec :
    parseDecimalParams "".data = (38, 18) ∧
    (∀ a b : List Char, ':' ∉ a → ':' ∉ b →
      parseDecimalParams (a ++ ':' :: b) =
        ((goParseInt32 a).getD 38, (goParseInt32 b).getD 18)) ∧
    (∀ s : List Char, ':' ∉ s →
      parseDecimalParams s = (38, (goParseInt32 s).getD 18)) ∧
    parseDecimalParams "2".data = (38, 2) ∧
    parseDecimalParams "10:6".data = (10, 6) ∧
    parseDecimalParams "abc:def".data = (38, 18) ∧
    parseDecimalParams "10:abc".data = (10, 18) := by
  refine ⟨by decide, ?_, ?_, by decide, by decide, by decide, by decide⟩
  · intro a b ha hb
    have hmem : ':' ∈ a ++ ':' :: b := by simp
    have hcontains := goContainsChar_eq_true (a ++ ':' :: b) ':' hmem
    have hne : a ++ ':' :: b ≠ [] := by simp
    have hsplit : goSplit ':' (a ++ ':' :: b) = [a, b] :=
      (goSplit_eq_pair ':' (a ++ ':' :: b) a b).mpr ⟨rfl, ha, hb⟩
    unfold parseDecimalParams
    rw [if_neg hne, hcontains, hsplit]
    rfl
  · intro s hs
    by_cases hnil : s = []
    · subst hnil
      decide
    · have hcontains := goContainsChar_eq_false s ':' hs
      unfold parseDecimalParams
      rw [if_neg hnil, hcontains]
      rfl

/-- Witness for C2: the universally quantified parts of
`parseDecimalParams_spec` applied at concrete inputs. -/
theorem parseDecimalParams_spec_witness :
    parseDecimalParams ("10".data ++ ':' :: "6".data) =
      ((goParseInt32 "10".data).getD 38, (goParseInt32 "6".data).getD 18) ∧
    parseDecimalParams "7".data = (38, (goParseInt32 "7".data).getD 18) :=
  ⟨parseDecimalParams_spec.2.1 "10".data "6".data (by decide) (by decide),
   parseDecimalParams_spec.2.2.1 "7".data (by decide)⟩

/-- C7 counterexample: the claim that `parseDecimalParams` always returns a
pair of non-negative integers is false: the parameter `"-5"` yields the pair
`(38, -5)`, whose scale component is negative. -/
theorem parseDecimalParams_nonneg_counterexample :
    parseDecimalParams "-5".data = (38, -5) ∧
      (parseDecimalParams "-5".data).2 < 0 := by decide

/-- C7 amended: for every parameter string, `parseDecimalParams` returns some
`(precision, scale)` pair without raising an error; each component is either
its default (38 or 18) or the signed 32-bit integer parsed from the
corresponding half, hence lies in the signed 32-bit range, but it need not be
non-negative. -/
theorem getD_goParseInt32_range (a : List Char) (dflt : Int)
    (h1 : -(2 ^ 31) ≤ dflt) (h2 : dflt ≤ 2 ^ 31 - 1) :
    -(2 ^ 31) ≤ (goParseInt32 a).getD dflt ∧
      (goParseInt32 a).getD dflt ≤ 2 ^ 31 - 1 := by
  cases ha : goParseInt32 a with
  | none => simpa using ⟨h1, h2⟩
  | some n => simpa using goParseInt32_range a n ha

theorem parseDecimalParams_total_int32_range (param : List Char) :
    (-(2 ^ 31) ≤ (parseDecimalParams param).1 ∧
      (parseDecimalParams param).1 ≤ 2 ^ 31 - 1) ∧
    (-(2 ^ 31) ≤ (parseDecimalParams param).2 ∧
      (parseDecimalParams param).2 ≤ 2 ^ 31 - 1) := by
  unfold parseDecimalParams
  split
  · exact ⟨by norm_num [DefaultPrecision], by norm_num [DefaultScale]⟩
  · split
    · split
      · dsimp only
        exact ⟨getD_goParseInt32_range _ DefaultPrecision
                 (by norm_num [DefaultPrecision]) (by norm_num [DefaultPrecision]),
               getD_goParseInt32_range _ DefaultScale
                 (by norm_num [DefaultScale]) (by norm_num [DefaultScale])⟩
      · exact ⟨by norm_num [DefaultPrecision], by norm_num [DefaultScale]⟩
    · dsimp only
      exact ⟨by norm_num [DefaultPrecision],
             getD_goParseInt32_range _ DefaultScale
               (by norm_num [DefaultScale]) (by norm_num [DefaultScale])⟩

/-- C3: for the `decimal_if` rule, when the parameter parses and the named
sibling field exists but its string value is not exactly equal to the expected
value, `validateDecimalIf` returns `true` (passes trivially) for every target
field value, including syntactically malformed ones; the target value is never
parsed or flagged in this case. -/
theorem validateDecimalIf_condition_unmet
    (parent : List (List Char × List Char))
    (data param rule field expect other : List Char)
    (hp : parseDecimalIfParam param = some (rule, field, expect))
    (hf : lookupField parent field = some other)
    (hne : other ≠ expect) :
    validateDecimalIf parent data param = true := by
  unfold validateDecimalIf
  rw [hp]
  simp only
  rw [hf]
  simp [hne]

/-- Witness for C3: with sibling `Type="debit"` and rule parameter
`"2@Type=credit"`, the malformed target value `"not-a-number"` passes. -/
theorem validateDecimalIf_condition_unmet_witness :
    validateDecimalIf [("Type".data, "debit".data)]
      "not-a-number".data "2@Type=credit".data = true :=
  validateDecimalIf_condition_unmet [("Type".data, "debit".data)]
    "not-a-number".data "2@Type=credit".data
    "2".data "Type".data "credit".data "debit".data
    (by decide) (by decide) (by decide)

/-- C8: for the `decimal_if` rule, when the parameter parses but the named
sibling field does not exist on the parent structure, `validateDecimalIf`
returns `false` (fail-closed) for every target field value. -/
theorem validateDecimalIf_sibling_missing
    (parent : List (List Char × List Char))
    (data param rule field expect : List Char)
    (hp : parseDecimalIfParam param = some (rule, field, expect))
    (hf : lookupField parent field = none) :
    validateDecimalIf parent data param = false := by
  unfold validateDecimalIf
  rw [hp]
  simp only
  rw [hf]

/-- Witness for C8: a parent with no field named `Mode` makes the rule
`"2@Mode=mode1"` fail for a well-formed target value. -/
theorem validateDecimalIf_sibling_missing_witness :
    validateDecimalIf [("Type".data, "debit".data)]
      "100.00".data "2@Mode=mode1".data = false :=
  validateDecimalIf_sibling_missing [("Type".data, "debit".data)]
    "100.00".data "2@Mode=mode1".data
    "2".data "Mode".data "mode1".data
    (by decide) (by decide)

/-- C5: each comparison rule parses the field's string and the rule's static
parameter string independently as decimal values and returns `false` whenever
either parse fails, with no distinguishable error; in particular `dgt=100`
against field value `"abc"` fails, and `dgt=abc` against field value `"150"`
also fails. -/
theorem validateDecimalOperation_fail_closed :
    (∀ (comparator : GoDecimal → GoDecimal → Bool) (data param : List Char),
      NewFromString data = none ∨ NewFromString param = none →
      validateDecimalOperation comparator data param = false) ∧
    validateDecimalOperation decimalGreaterThan "abc".data "100".data = false ∧
    validateDecimalOperation decimalGreaterThan "150".data "abc".data = false := by
  refine ⟨?_, by decide, by decide⟩
  intro comparator data param h
  unfold validateDecimalOperation
  rcases h with h | h
  · rw [h]
  · cases hd : NewFromString data with
    | none => rfl
    | some v =>
      simp only
      rw [h]

/-- Witness for C5: the universally quantified part of
`validateDecimalOperation_fail_closed` applied to `decimalLessThan` and a
malformed parameter string. -/
theorem validateDecimalOperation_fail_closed_witness :
    validateDecimalOperation decimalLessThan "7".data "x1".data = false :=
  validateDecimalOperation_fail_closed.1 decimalLessThan "7".data "x1".data
    (Or.inr (by decide))

/-- C4: `parseDecimalIfParam` succeeds exactly on parameter strings containing
exactly one `@` and, within the substring after the `@`, exactly one `=`; any
other count of either separator is a parse error, which `validateDecimalIf`
turns into a validation failure; the rule, field-name and expected-value
components may each be empty; concretely `"2@Mode=mode1"` parses to
`("2","Mode","mode1")`, `"@Status=active"` parses to `("","Status","active")`,
and `"2Mode=mode1"` is a parse error. -/
theorem parseDecimalIfParam_spec :
    (∀ param : List Char,
      (parseDecimalIfParam param).isSome = true ↔
        ∃ r c, param = r ++ '@' :: c ∧ '@' ∉ r ∧ '@' ∉ c ∧
          ∃ f e, c = f ++ '=' :: e ∧ '=' ∉ f ∧ '=' ∉ e) ∧
    (∀ r f e : List Char, '@' ∉ r → '@' ∉ f → '@' ∉ e → '=' ∉ f → '=' ∉ e →
      parseDecimalIfParam (r ++ '@' :: (f ++ '=' :: e)) = some (r, f, e)) ∧
    (∀ (parent : List (List Char × List Char)) (data param : List Char),
      parseDecimalIfParam param = none →
      validateDecimalIf parent data param = false) ∧
    parseDecimalIfParam "2@Mode=mode1".data =
      some ("2".data, "Mode".data, "mode1".data) ∧
    parseDecimalIfParam "@Status=active".data =
      some ([], "Status".data, "active".data) ∧
    parseDecimalIfParam "2Mode=mode1".data = none := by
  refine ⟨?_, ?_, ?_, by decide, by decide, by decide⟩
  · intro param
    constructor
    · intro h
      unfold parseDecimalIfParam at h
      split at h
      · next r c hsp =>
        obtain ⟨hparam, hr, hc⟩ := (goSplit_eq_pair '@' param r c).mp hsp
        split at h
        · next f e hsp2 =>
          obtain ⟨hcfe, hf, he⟩ := (goSplit_eq_pair '=' c f e).mp hsp2
          exact ⟨r, c, hparam, hr, hc, f, e, hcfe, hf, he⟩
        · simp at h
      · simp at h
    · rintro ⟨r, c, hparam, hr, hc, f, e, hcfe, hf, he⟩
      have hsp : goSplit '@' param = [r, c] :=
        (goSplit_eq_pair '@' param r c).mpr ⟨hparam, hr, hc⟩
      have hsp2 : goSplit '=' c = [f, e] :=
        (goSplit_eq_pair '=' c f e).mpr ⟨hcfe, hf, he⟩
      unfold parseDecimalIfParam
      rw [hsp]
      simp [hsp2]
  · intro r f e hr hf1 he1 hf2 he2
    have hc : '@' ∉ f ++ '=' :: e := by
      simp only [List.mem_append, List.mem_cons, not_or]
      exact ⟨hf1, by decide, he1⟩
    have hsp : goSplit '@' (r ++ '@' :: (f ++ '=' :: e)) = [r, f ++ '=' :: e] :=
      (goSplit_eq_pair '@' _ r (f ++ '=' :: e)).mpr ⟨rfl, hr, hc⟩
    have hsp2 : goSplit '=' (f ++ '=' :: e) = [f, e] :=
      (goSplit_eq_pair '=' _ f e).mpr ⟨rfl, hf2, he2⟩
    unfold parseDecimalIfParam
    rw [hsp]
    simp [hsp2]
  · intro parent data param h
    unfold validateDecimalIf
    rw [h]

/-- Witness for C4: the universally quantified parts of
`parseDecimalIfParam_spec` applied at concrete inputs. -/
theorem parseDecimalIfParam_spec_witness :
    (parseDecimalIfParam "0@X=y".data).isSome = true ∧
    parseDecimalIfParam ("38:19".data ++ '@' :: ("Mode".data ++ '=' :: "mode2".data)) =
      some ("38:19".data, "Mode".data, "mode2".data) ∧
    validateDecimalIf [] "5".data "2Mode=mode1".data = false :=
  ⟨(parseDecimalIfParam_spec.1 "0@X=y".data).mpr
     ⟨"0".data, "X=y".data, by decide, by decide, by decide,
      "X".data, "y".data, by decide, by decide, by decide⟩,
   parseDecimalIfParam_spec.2.1 "38:19".data "Mode".data "mode2".data
     (by decide) (by decide) (by decide) (by decide) (by decide),
   parseDecimalIfParam_spec.2.2.1 [] "5".data "2Mode=mode1".data (by decide)⟩

/-! ### Numeric meaning of the comparators -/

theorem rescaleValue_toRat (d : GoDecimal) (m : Int) (hm : m ≤ d.exp) :
    (d.rescaleValue m : ℚ) * 10 ^ m = d.toRat := by
  unfold GoDecimal.rescaleValue GoDecimal.toRat
  push_cast
  rw [← zpow_natCast (10 : ℚ) (d.exp - m).toNat,
    Int.toNat_of_nonneg (by omega : (0:Int) ≤ d.exp - m),
    mul_assoc, ← zpow_add₀ (by norm_num : (10 : ℚ) ≠ 0)]
  rw [sub_add_cancel]

theorem decimalEqual_iff_toRat (a b : GoDecimal) :
    decimalEqual a b = true ↔ a.toRat = b.toRat := by
  unfold decimalEqual
  simp only [decide_eq_true_eq]
  have ha := rescaleValue_toRat a (min a.exp b.exp) (min_le_left _ _)
  have hb := rescaleValue_toRat b (min a.exp b.exp) (min_le_right _ _)
  constructor
  · intro h
    rw [← ha, ← hb, h]
  · intro h
    have hmul : (a.rescaleValue (min a.exp b.exp) : ℚ) * 10 ^ (min a.exp b.exp) =
        (b.rescaleValue (min a.exp b.exp) : ℚ) * 10 ^ (min a.exp b.exp) := by
      rw [ha, hb, h]
    have h10 : ((10 : ℚ)) ^ (min a.exp b.exp) ≠ 0 :=
      zpow_ne_zero _ (by norm_num)
    exact_mod_cast mul_right_cancel₀ h10 hmul

/-- C9: the `deq` comparison decides exact numeric equality of the two parsed
decimal values, independent of textual representation: for any two literals
denoting the same number, `deq` with one as field value and the other as
parameter returns `true` and `dneq` returns `false`; in particular for
`"100.50"` and `"100.5"`. -/
theorem deq_exact_numeric_equality :
    (∀ (sv pv : List Char) (a b : GoDecimal),
      NewFromString sv = some a → NewFromString pv = some b →
      a.toRat = b.toRat →
      validateDecimalOperation decimalEqual sv pv = true ∧
      validateDecimalOperation decimalNotEqual sv pv = false) ∧
    validateDecimalOperation decimalEqual "100.50".data "100.5".data = true ∧
    validateDecimalOperation decimalNotEqual "100.50".data "100.5".data = false := by
  refine ⟨?_, by decide, by decide⟩
  intro sv pv a b ha hb heq
  unfold validateDecimalOperation
  rw [ha]
  simp only
  rw [hb]
  have h := (decimalEqual_iff_toRat a b).mpr heq
  simp only [decimalNotEqual]
  exact ⟨h, by rw [h]; rfl⟩

/-- Witness for C9: `deq_exact_numeric_equality` applied to the literals
`"100.50"` and `"100.5"`, which parse to numerically equal decimal values. -/
theorem deq_exact_numeric_equality_witness :
    validateDecimalOperation decimalEqual "100.50".data "100.5".data = true ∧
    validateDecimalOperation decimalNotEqual "100.50".data "100.5".data = false :=
  deq_exact_numeric_equality.1 "100.50".data "100.5".data
    ⟨10050, -2⟩ ⟨1005, -1⟩ (by decide) (by decide)
    (by norm_num [GoDecimal.toRat])

/-! ### The decimal-literal grammar -/

/-- The spec's decimal-literal grammar (§4.2): an optional leading minus sign,
one or more integer digits, and an optional dot followed by one or more
fractional digits. -/
def IsDecimalLiteral (s : List Char) : Prop :=
  ∃ sign intDs rest : List Char,
    (sign = [] ∨ sign = ['-']) ∧
    intDs ≠ [] ∧ intDs.all Char.isDigit = true ∧
    (rest = [] ∨
      ∃ fds : List Char, fds ≠ [] ∧ fds.all Char.isDigit = true ∧
        rest = '.' :: fds) ∧
    s = sign ++ intDs ++ rest

theorem all_takeWhile_self (p : Char → Bool) (l : List Char) :
    (l.takeWhile p).all p = true := by
  induction l with
  | nil => rfl
  | cons x xs ih =>
    by_cases hx : p x = true
    · rw [List.takeWhile_cons, if_pos hx]
      simp [hx, ih]
    · rw [List.takeWhile_cons, if_neg hx]
      rfl

theorem dropWhile_head_false (p : Char → Bool) (l : List Char) (c : Char)
    (cs : List Char) (h : l.dropWhile p = c :: cs) : p c = false := by
  induction l with
  | nil => simp at h
  | cons x xs ih =>
    by_cases hx : p x = true
    · rw [List.dropWhile_cons, if_pos hx] at h
      exact ih h
    · rw [List.dropWhile_cons, if_neg hx] at h
      injection h with h1 _
      rw [← h1]
      simpa using hx

theorem takeWhile_append_of_all (p : Char → Bool) (l l' : List Char)
    (h : l.all p = true)
    (h' : ∀ c cs, l' = c :: cs → p c = false) :
    (l ++ l').takeWhile p = l ∧ (l ++ l').dropWhile p = l' := by
  induction l with
  | nil =>
    simp only [List.nil_append]
    cases l' with
    | nil => simp
    | cons c cs =>
      have hc := h' c cs rfl
      rw [List.takeWhile_cons, if_neg (by simp [hc]),
        List.dropWhile_cons, if_neg (by simp [hc])]
      exact ⟨rfl, rfl⟩
  | cons x xs ih =>
    simp only [List.all_cons, Bool.and_eq_true] at h
    have hxs := ih h.2
    simp only [List.cons_append]
    rw [List.takeWhile_cons, if_pos h.1, List.dropWhile_cons, if_pos h.1]
    exact ⟨by rw [hxs.1], hxs.2⟩

theorem parseUnsignedDecimal_isSome (s : List Char) :
    (parseUnsignedDecimal s).isSome = true ↔
      ∃ intDs rest : List Char,
        intDs ≠ [] ∧ intDs.all Char.isDigit = true ∧
        (rest = [] ∨
          ∃ fds : List Char, fds ≠ [] ∧ fds.all Char.isDigit = true ∧
            rest = '.' :: fds) ∧
        s = intDs ++ rest := by
  constructor
  · intro h
    unfold parseUnsignedDecimal at h
    split at h
    · simp at h
    · next hnil =>
      have hall := all_takeWhile_self Char.isDigit s
      have hjoin := (List.takeWhile_append_dropWhile (p := Char.isDigit) (l := s)).symm
      split at h
      · next hdrop =>
        exact ⟨s.takeWhile Char.isDigit, [], hnil, hall, Or.inl rfl,
          by rw [hdrop] at hjoin; exact hjoin⟩
      · next frac hdrop =>
        split at h
        · next hcond =>
          exact ⟨s.takeWhile Char.isDigit, '.' :: frac, hnil, hall,
            Or.inr ⟨frac, hcond.1, hcond.2, rfl⟩,
            by rw [hdrop] at hjoin; exact hjoin⟩
        · simp at h
      · simp at h
  · rintro ⟨intDs, rest, hne, hall, hrest, hs⟩
    have hhead : ∀ c cs, rest = c :: cs → Char.isDigit c = false := by
      intro c cs hc
      rcases hrest with h0 | ⟨fds, -, -, hfds⟩
      · rw [h0] at hc; exact absurd hc (by simp)
      · rw [hfds] at hc
        injection hc with h1 _
        rw [← h1]
        decide
    obtain ⟨htake, hdrop⟩ := takeWhile_append_of_all Char.isDigit intDs rest hall hhead
    subst hs
    unfold parseUnsignedDecimal
    rw [if_neg (show ¬(intDs ++ rest).takeWhile Char.isDigit = [] by
      rw [htake]; exact hne), hdrop]
    rcases hrest with h0 | ⟨fds, hfne, hfall, hfds⟩
    · rw [h0]
      rfl
    · rw [hfds]
      simp only
      rw [if_pos ⟨hfne, hfall⟩]
      rfl

/-- C6: the Decimal Value Parser accepts exactly the strings consisting of an
optional leading `-`, one or more integer digits, and optionally a `.`
followed by one or more fractional digits; every other string is a parse
failure, hence rejected by the `decimal` rule. -/
theorem NewFromString_grammar :
    (∀ s : List Char, (NewFromString s).isSome = true ↔ IsDecimalLiteral s) ∧
    (∀ s param : List Char, NewFromString s = none →
      validateDecimal s param = false) := by
  constructor
  · intro s
    constructor
    · intro h
      unfold NewFromString at h
      split at h
      · next rest =>
        rw [Option.isSome_map'] at h
        obtain ⟨intDs, rest', hne, hall, hrest, hs⟩ :=
          (parseUnsignedDecimal_isSome rest).mp h
        exact ⟨['-'], intDs, rest', Or.inr rfl, hne, hall, hrest, by
          rw [hs]; rfl⟩
      · rw [Option.isSome_map'] at h
        obtain ⟨intDs, rest', hne, hall, hrest, hs⟩ :=
          (parseUnsignedDecimal_isSome s).mp h
        exact ⟨[], intDs, rest', Or.inl rfl, hne, hall, hrest, by
          rw [hs]; rfl⟩
    · rintro ⟨sign, intDs, rest, hsign, hne, hall, hrest, hs⟩
      have hsub : (parseUnsignedDecimal (intDs ++ rest)).isSome = true :=
        (parseUnsignedDecimal_isSome (intDs ++ rest)).mpr
          ⟨intDs, rest, hne, hall, hrest, rfl⟩
      rcases hsign with h0 | h1
      · rw [h0, List.nil_append] at hs
        cases hin : intDs with
        | nil => exact absurd hin hne
        | cons d ds =>
          have hd : d.isDigit = true := by
            rw [hin] at hall
            simp only [List.all_cons, Bool.and_eq_true] at hall
            exact hall.1
          subst hs
          unfold NewFromString
          split
          · next rest' heq =>
            rw [hin, List.cons_append] at heq
            injection heq with h2 _
            rw [h2] at hd
            exact absurd hd (by decide)
          · rw [Option.isSome_map']
            exact hsub
      · rw [h1] at hs
        subst hs
        show ((parseUnsignedDecimal (intDs ++ rest)).map _).isSome = true
        rw [Option.isSome_map']
        exact hsub
  · intro s param h
    unfold validateDecimal
    rw [h]

/-- Witness for C6: the rejection clause of `NewFromString_grammar` applied to
the malformed literal `"1.2.3"`. -/
theorem NewFromString_grammar_witness :
    validateDecimal "1.2.3".data "10:2".data = false :=
  NewFromString_grammar.2 "1.2.3".data "10:2".data (by decide)

end XValidator
